import Mathlib

set_option maxRecDepth 40000

/-!
Verification development for the `round_corners.py` corner-rounding kernel
(inkscape-round-corners fork). The Python source is shallowly embedded below:
Python floats are modelled as exact rationals (`Sc`, an integer numerator with
a positive natural denominator, kept in lowest terms so that all arithmetic is
kernel-computable on small integers), `math.sqrt` is modelled by `rsqrt` (a deterministic
fixed-precision floor approximation of the real square root that is exact on
rationals whose square root is rational), Python exceptions are modelled by
`Except Err`, and the unbounded recursions of the source are given explicit
fuel (`Err.fuelOut` marks fuel exhaustion, which the Python code cannot
produce; every concrete run below stays far below the fuel bounds).
-/

/-- Scalar type modelling the Python float values: an exact rational with
integer numerator `n` and positive denominator `dm1 + 1` (stored as the
predecessor `dm1` so that positivity of the denominator is structural and no
proof terms travel through evaluation). All operations reduce to lowest
terms via `Sc.mkRed`. -/
structure Sc where
  n : Int
  dm1 : Nat
deriving DecidableEq

/-- The (always positive) denominator of a scalar. -/
def Sc.den (a : Sc) : Nat := a.dm1 + 1

/-- Build the scalar `x / dd` (for positive `dd`) in lowest terms; keeping
every scalar reduced keeps the integers small through deep computations. -/
def Sc.mkRed (x : Int) (dd : Nat) : Sc :=
  let g := Nat.gcd x.natAbs dd
  ⟨x / (g : Int), dd / g - 1⟩

/-- Make a scalar from a numerator and a positive denominator (a zero
denominator argument falls back to 1; never used that way below). -/
def scMk (nn : Int) (dd : Nat) : Sc := Sc.mkRed nn (if 0 < dd then dd else 1)

instance : OfNat Sc k := ⟨scMk (Int.ofNat k) 1⟩

instance : Inhabited Sc := ⟨scMk 0 1⟩

def Sc.add (a b : Sc) : Sc := Sc.mkRed (a.n * b.den + b.n * a.den) (a.den * b.den)

def Sc.mul (a b : Sc) : Sc := Sc.mkRed (a.n * b.n) (a.den * b.den)

def Sc.neg (a : Sc) : Sc := ⟨-a.n, a.dm1⟩

def Sc.sub (a b : Sc) : Sc := Sc.add a (Sc.neg b)

/-- Reciprocal; the reciprocal of an exactly-zero scalar yields the junk
value 0, but every division in the embedded code is guarded by an explicit
zero test mirroring Python's `ZeroDivisionError`. -/
def Sc.inv (a : Sc) : Sc :=
  if 0 < a.n then ⟨(a.den : Int), a.n.toNat - 1⟩
  else if a.n < 0 then ⟨-(a.den : Int), (-a.n).toNat - 1⟩
  else ⟨0, 0⟩

def Sc.div (a b : Sc) : Sc := Sc.mul a (Sc.inv b)

instance : Add Sc := ⟨Sc.add⟩
instance : Mul Sc := ⟨Sc.mul⟩
instance : Neg Sc := ⟨Sc.neg⟩
instance : Sub Sc := ⟨Sc.sub⟩
instance : Div Sc := ⟨Sc.div⟩

/-- Decidable `a <= b` (valid because denominators are positive). -/
def Sc.ble (a b : Sc) : Bool := a.n * b.den ≤ b.n * a.den

/-- Decidable `a < b`. -/
def Sc.blt (a b : Sc) : Bool := a.n * b.den < b.n * a.den

/-- Decidable value equality (equality of the represented rationals). -/
def Sc.beqS (a b : Sc) : Bool := a.n * b.den == b.n * a.den

/-- Exact zero test, modelling Python's `x != 0.` / float-division-by-zero
checks. -/
def Sc.isZero (a : Sc) : Bool := a.n == 0

/-- Absolute value. -/
def Sc.sabs (a : Sc) : Sc := ⟨Int.ofNat a.n.natAbs, a.dm1⟩

/-- Python `min(a, b)` (first argument wins ties). -/
def Sc.minS (a b : Sc) : Sc := if Sc.ble a b then a else b

/-- Python `max(a, b)` (first argument wins ties). -/
def Sc.maxS (a b : Sc) : Sc := if Sc.ble b a then a else b

/-- Bitwise integer square root: largest `k < 2 ^ f` with `k * k <= m`. -/
def isqrtGo (m : Nat) : Nat → Nat → Nat
| 0, acc => acc
| (f+1), acc =>
  let c := acc + (1 <<< f)
  if c * c ≤ m then isqrtGo m f c else isqrtGo m f acc

def isqrt (m : Nat) : Nat := isqrtGo m 400 0

/-- Precision scale of the square-root model. -/
def sqK : Nat := 100000

/-- Model of `math.sqrt` on nonnegative scalars: the floor approximation of
the real square root at precision `1 / sqK`. It is exact whenever the
argument has a rational square root (of moderate size), which covers every
square root whose value feeds a control-flow decision in the concrete runs
below. Nonpositive arguments give 0; the one call site where Python could
receive a negative argument (`arc_bezier_handles`) guards it explicitly. -/
def rsqrt (a : Sc) : Sc :=
  if a.n ≤ 0 then scMk 0 1
  else Sc.mkRed (Int.ofNat (isqrt (a.n.toNat * a.den * (sqK * sqK)))) (a.den * sqK)

/-- Interpretation of a scalar as a rational number, used for the order- and
field-theoretic reasoning in the general theorems. -/
def Sc.toQ (a : Sc) : ℚ := (a.n : ℚ) / (a.den : ℚ)

/-- Error values modelling the Python exceptions that can escape the kernel:
`zeroDiv` models `ZeroDivisionError`, `detZero` models the explicit
`Exception("det = 0 case not implemented yet")` raise, `negSqrt` models
`ValueError` from `math.sqrt` of a negative, `badInput` models the
constructor's input-validation raises (and attribute errors on malformed
trees), and `fuelOut` is the artificial out-of-fuel marker. -/
inductive Err where
| zeroDiv
| detZero
| negSqrt
| badInput
| fuelOut
deriving DecidableEq

instance {ε α : Type} [DecidableEq ε] [DecidableEq α] : DecidableEq (Except ε α) := fun a b =>
  match a, b with
  | .error e, .error f =>
    if h : e = f then .isTrue (h ▸ rfl) else .isFalse (fun c => h (Except.error.inj c))
  | .ok x, .ok y =>
    if h : x = y then .isTrue (h ▸ rfl) else .isFalse (fun c => h (Except.ok.inj c))
  | .error _, .ok _ => .isFalse (fun c => Except.noConfusion c)
  | .ok _, .error _ => .isFalse (fun c => Except.noConfusion c)

/-- Planar point. -/
structure Pt where
  x : Sc
  y : Sc
deriving DecidableEq

instance : Inhabited Pt := ⟨⟨0, 0⟩⟩

/-- One de Casteljau averaging pass over a coordinate list
(the body of the inner `while i < len(prev_x_list)` loop). -/
def lerpList (t : Sc) : List Sc → List Sc
| a :: b :: rest => ((1 - t) * a + t * b) :: lerpList t (b :: rest)
| _ => []

/-- The `while len(prev_x_list) > 2` reduction loop of
`calculate_center_point`, with fuel (the list length strictly decreases, so
fuel equal to the initial length always suffices). -/
def dcLoop (t : Sc) : Nat → List Sc → List Sc
| 0, l => l
| (f+1), l => if 2 < l.length then dcLoop t f (lerpList t l) else l

/-- The constant data of one `CenterCurveSegment` instance: coordinate lists
of the bezier control points, the side sign, the radius, and eps. -/
structure Ctx where
  x : List Sc
  y : List Sc
  side : Sc
  radius : Sc
  eps : Sc
deriving DecidableEq

/-- Embedding of `CenterCurveSegment.calculate_center_point`: de Casteljau
down to two points, then offset the curve point by `radius` along the rotated
normalized tangent. The division by `norm` is unguarded in the source (see
the `TODO: handle norm=0 case` comment there); here division-by-zero is the
explicit error `Err.zeroDiv`, mirroring Python's `ZeroDivisionError`. -/
def calculate_center_point (c : Ctx) (t : Sc) : Except Err Pt :=
  let xs := dcLoop t c.x.length c.x
  let ys := dcLoop t c.y.length c.y
  let x0 := xs.getD 0 0
  let x1 := xs.getD 1 0
  let y0 := ys.getD 0 0
  let y1 := ys.getD 1 0
  let dx := x1 - x0
  let dy := y1 - y0
  let norm := rsqrt (dx * dx + dy * dy)
  if norm.isZero then .error .zeroDiv
  else .ok ⟨(1 - t) * x0 + t * x1 - c.side * dy / norm * c.radius,
            (1 - t) * y0 + t * y1 + c.side * dx / norm * c.radius⟩

/-- Bounding values `(min v_parallel, max v_parallel, min v_orthogonal,
max v_orthogonal)` of a hull in a search-direction frame. -/
structure SV where
  v0 : Sc
  v1 : Sc
  v2 : Sc
  v3 : Sc
deriving DecidableEq

/-- Minimum of a scalar list, Python `min` (ties keep the earlier element). -/
def minL : List Sc → Sc
| [] => 0
| h :: t => t.foldl Sc.minS h

/-- Maximum of a scalar list, Python `max`. -/
def maxL : List Sc → Sc
| [] => 0
| h :: t => t.foldl Sc.maxS h

/-- Embedding of `CenterCurveSegment.convexHullSearchValues`, as a function
of the hull point list and the search direction. -/
def convexHullSearchValues (hull : List Pt) (dir : Pt) : SV :=
  let vpar := hull.map (fun p => dir.x * p.x + dir.y * p.y)
  let vorth := hull.map (fun p => -dir.y * p.x + dir.x * p.y)
  ⟨minL vpar, maxL vpar, minL vorth, maxL vorth⟩

/-- Per-node data of the offset-curve tree (the attributes a
`CenterCurveSegment` object carries besides its child list). -/
structure CCData where
  t_start : Sc
  t_end : Sc
  p_start : Pt
  p_end : Pt
  searchDir : Pt
  searchValues : SV
  hullPoints : List Pt
  terminalSegments : Nat
deriving DecidableEq

instance : Inhabited CCData :=
  ⟨⟨0, 0, default, default, default, ⟨0, 0, 0, 0⟩, [], 1⟩⟩

/-- The offset-curve ("center curve") tree: a terminal segment, or an inner
segment with its two sub-segments (`_segments` always has length two in the
source). -/
inductive CenterCurveSegment where
| leaf : CCData → CenterCurveSegment
| node : CCData → CenterCurveSegment → CenterCurveSegment → CenterCurveSegment
deriving DecidableEq

instance : Inhabited CenterCurveSegment := ⟨.leaf default⟩

/-- The node data of a tree. -/
def CenterCurveSegment.data : CenterCurveSegment → CCData
| .leaf d => d
| .node d _ _ => d

/-- The data of an inner tree node: the union box of the two children in the
node's own search frame, and the four corners of that box as the hull
(source lines 652-683). -/
def ccNodeData (ts te : Sc) (ps pe dir : Pt) (c1 c2 : CenterCurveSegment) : CCData :=
  let tS := c1.data.terminalSegments + c2.data.terminalSegments
  let sv1 := convexHullSearchValues c1.data.hullPoints dir
  let sv2 := convexHullSearchValues c2.data.hullPoints dir
  let sv : SV := ⟨Sc.minS sv1.v0 sv2.v0, Sc.maxS sv1.v1 sv2.v1,
                  Sc.minS sv1.v2 sv2.v2, Sc.maxS sv1.v3 sv2.v3⟩
  let hull : List Pt :=
    [⟨dir.x * sv.v0 - dir.y * sv.v2, dir.y * sv.v0 + dir.x * sv.v2⟩,
     ⟨dir.x * sv.v0 - dir.y * sv.v3, dir.y * sv.v0 + dir.x * sv.v3⟩,
     ⟨dir.x * sv.v1 - dir.y * sv.v2, dir.y * sv.v1 + dir.x * sv.v2⟩,
     ⟨dir.x * sv.v1 - dir.y * sv.v3, dir.y * sv.v1 + dir.x * sv.v3⟩]
  ⟨ts, te, ps, pe, dir, sv, hull, tS⟩

/-- The data of a terminal tree node: hull and box are the two chord
endpoints (source lines 684-688). -/
def ccLeafData (ts te : Sc) (ps pe dir : Pt) : CCData :=
  ⟨ts, te, ps, pe, dir, convexHullSearchValues [ps, pe] dir, [ps, pe], 1⟩

/-- One step of the `CenterCurveSegment.__init__` constructor, with the
recursive subdivision call abstracted as `rec2`. -/
def buildStep (c : Ctx)
    (rec2 : Sc → Sc → Option Pt → Option Pt → Except Err CenterCurveSegment)
    (ts te : Sc) (ops ope : Option Pt) : Except Err CenterCurveSegment :=
  if c.x.length ≠ c.y.length then .error .badInput
  else if c.x.length < 2 then .error .badInput
  else
  match (match ops with
         | some p => .ok p
         | none => calculate_center_point c ts : Except Err Pt) with
  | .error e => .error e
  | .ok ps =>
  match (match ope with
         | some p => .ok p
         | none => calculate_center_point c te : Except Err Pt) with
  | .error e => .error e
  | .ok pe =>
  let nx := pe.x - ps.x
  let ny := pe.y - ps.y
  let n_norm := rsqrt (nx * nx + ny * ny)
  if n_norm.isZero then .error .zeroDiv
  else
  let dir : Pt := ⟨nx / n_norm, ny / n_norm⟩
  let t_mid := (ts + te) / 2
  match calculate_center_point c t_mid with
  | .error e => .error e
  | .ok pm =>
  if Sc.blt (scMk 26 100) (te - ts) ||
     Sc.blt (c.eps * c.eps)
       (((ps.x + pe.x) / 2 - pm.x) * ((ps.x + pe.x) / 2 - pm.x) +
        ((ps.y + pe.y) / 2 - pm.y) * ((ps.y + pe.y) / 2 - pm.y)) then
      match rec2 ts t_mid (some ps) (some pm) with
      | .error e => .error e
      | .ok c1 =>
      match rec2 t_mid te (some pm) (some pe) with
      | .error e => .error e
      | .ok c2 => .ok (.node (ccNodeData ts te ps pe dir c1 c2) c1 c2)
  else
    .ok (.leaf (ccLeafData ts te ps pe dir))

/-- Embedding of the recursive `CenterCurveSegment.__init__` constructor,
with fuel for the (in Python unbounded) subdivision recursion. -/
def buildCC (c : Ctx) : Nat → Sc → Sc → Option Pt → Option Pt →
    Except Err CenterCurveSegment
| 0, _, _, _, _ => .error .fuelOut
| fuel + 1, ts, te, ops, ope => buildStep c (buildCC c fuel) ts te ops ope

/-- True when an intersection result stops the nested search loops: an error
(Python exception propagating) or a found parameter pair. Only `.ok none`
("no intersection on this branch") lets the loops continue. -/
def stopRes (r : Except Err (Option (Sc × Sc))) : Bool :=
  match r with
  | .ok none => false
  | _ => true

/-- Embedding of `intersectCenterCurveSegments`, with fuel. Because the
source's `subSegments1.reverse()` reverses the child list of `segment1` in
place whenever `segment1` is an inner node, the embedding threads the
(possibly mutated) trees through the recursion and returns them alongside
the result: the returned pair of trees is the post-call state of the two
argument trees. This is one step of the recursion, with the recursive call
abstracted as `g`. -/
def interStep
    (g : CenterCurveSegment → CenterCurveSegment →
      (Except Err (Option (Sc × Sc))) × CenterCurveSegment × CenterCurveSegment)
    (s1 s2 : CenterCurveSegment) :
    (Except Err (Option (Sc × Sc))) × CenterCurveSegment × CenterCurveSegment :=
  let d1 := s1.data
  let d2 := s2.data
  let sv := convexHullSearchValues d2.hullPoints d1.searchDir
  if Sc.blt d1.searchValues.v1 sv.v0 || Sc.blt sv.v1 d1.searchValues.v0 ||
     Sc.blt d1.searchValues.v3 sv.v2 || Sc.blt sv.v3 d1.searchValues.v2 then
    (.ok none, s1, s2)
  else
  let sv' := convexHullSearchValues d1.hullPoints d2.searchDir
  if Sc.blt d2.searchValues.v1 sv'.v0 || Sc.blt sv'.v1 d2.searchValues.v0 ||
     Sc.blt d2.searchValues.v3 sv'.v2 || Sc.blt sv'.v3 d2.searchValues.v2 then
    (.ok none, s1, s2)
  else
  if d1.terminalSegments == 1 && d2.terminalSegments == 1 then
    let a11 := d1.p_end.x - d1.p_start.x
    let a21 := d1.p_end.y - d1.p_start.y
    let a12 := d2.p_start.x - d2.p_end.x
    let a22 := d2.p_start.y - d2.p_end.y
    let b1 := d2.p_start.x - d1.p_start.x
    let b2 := d2.p_start.y - d1.p_start.y
    let det := a11 * a22 - a21 * a12
    if !det.isZero then
      let t1 := (a22 * b1 - a12 * b2) / det
      let t2 := (-a21 * b1 + a11 * b2) / det
      (.ok (some ((1 - t1) * d1.t_start + t1 * d1.t_end,
                  (1 - t2) * d2.t_start + t2 * d2.t_end)), s1, s2)
    else
      (.error .detZero, s1, s2)
  else
  if 1 < d1.terminalSegments then
    match s1 with
    | .leaf e1 => (.error .badInput, .leaf e1, s2)
    | .node e1 a b =>
      if 1 < d2.terminalSegments then
        match s2 with
        | .leaf e2 => (.error .badInput, .node e1 b a, .leaf e2)
        | .node e2 cc dd =>
          let R1 := g b cc
          if stopRes R1.1 then (R1.1, .node e1 R1.2.1 a, .node e2 R1.2.2 dd)
          else
          let R2 := g R1.2.1 dd
          if stopRes R2.1 then (R2.1, .node e1 R2.2.1 a, .node e2 R1.2.2 R2.2.2)
          else
          let R3 := g a R1.2.2
          if stopRes R3.1 then (R3.1, .node e1 R2.2.1 R3.2.1, .node e2 R3.2.2 R2.2.2)
          else
          let R4 := g R3.2.1 R2.2.2
          (R4.1, .node e1 R2.2.1 R4.2.1, .node e2 R3.2.2 R4.2.2)
      else
        let R1 := g b s2
        if stopRes R1.1 then (R1.1, .node e1 R1.2.1 a, R1.2.2)
        else
        let R2 := g a R1.2.2
        (R2.1, .node e1 R1.2.1 R2.2.1, R2.2.2)
  else
    if 1 < d2.terminalSegments then
      match s2 with
      | .leaf e2 => (.error .badInput, s1, .leaf e2)
      | .node e2 cc dd =>
        let R1 := g s1 cc
        if stopRes R1.1 then (R1.1, R1.2.1, .node e2 R1.2.2 dd)
        else
        let R2 := g R1.2.1 dd
        (R2.1, R2.2.1, .node e2 R1.2.2 R2.2.2)
    else
      g s1 s2

/-- Embedding of `intersectCenterCurveSegments`, with fuel. See the doc
comment of `interStep` for the state threading. -/
def intersectCenterCurveSegments :
    Nat → CenterCurveSegment → CenterCurveSegment →
    (Except Err (Option (Sc × Sc))) × CenterCurveSegment × CenterCurveSegment
| 0, s1, s2 => (.error .fuelOut, s1, s2)
| fuel + 1, s1, s2 => interStep (intersectCenterCurveSegments fuel) s1 s2

/-- A cubic-superpath node `[prev-handle, point, next-handle]`. -/
structure SpN where
  h0 : Pt
  pt : Pt
  h2 : Pt
deriving DecidableEq

instance : Inhabited SpN := ⟨default, default, default⟩

/-- List indexing with the default node (valid indices are always in range
in the embedded runs). -/
def spGet (sp : List SpN) (i : Nat) : SpN := sp.getD i default

/-- Embedding of `very_close_xy` (1e-9 proximity of two points). -/
def very_close_xy (p1 p2 : Pt) : Bool :=
  Sc.blt (Sc.sabs (p1.x - p2.x)) (scMk 1 1000000000) &&
  Sc.blt (Sc.sabs (p1.y - p2.y)) (scMk 1 1000000000)

/-- Embedding of `very_close` (deep proximity of two superpath nodes). -/
def very_close (n1 n2 : SpN) : Bool :=
  very_close_xy n1.h0 n2.h0 && very_close_xy n1.pt n2.pt && very_close_xy n1.h2 n2.h2

/-- One of the `prev` / `next` dictionaries built by `super_node`
(`dist1` / `dist2` are computed by the source but never stored or used). -/
structure SNSide where
  idx : Nat
  dir : Pt
  handle : Pt
deriving DecidableEq

/-- The supernode dictionary built by `super_node`. -/
structure SN where
  idx : Nat
  prev : SNSide
  next : SNSide
  x : Sc
  y : Sc
deriving DecidableEq

/-- Embedding of `RoundedCorners.super_node`. Returns `none` exactly on the
two degenerate-skip paths (each of which increments `skipped_degenerated` in
the caller); otherwise returns the supernode and the (possibly tweaked) copy
of the selected node. -/
def super_node (sp : List SpN) (node_idx : Nat) : Option (SN × SpN) :=
  let lenSp := sp.length
  let start :=
    (if node_idx = 0 then
      let t0 := spGet sp 0
      let pr1 := lenSp - 1
      if very_close t0 (spGet sp pr1) then
        let pr2 := lenSp - 2
        if very_close_xy t0.pt (spGet sp pr2).pt then
          some (lenSp - 3, ⟨(spGet sp pr2).h0, t0.pt, t0.h2⟩)
        else
          some (pr2, t0)
      else
        none
    else
      some (node_idx - 1, spGet sp node_idx) : Option (Nat × SpN))
  match start with
  | none => none
  | some (prev_idx, spn) =>
    if node_idx = lenSp - 1 then none
    else
      let next_idx := if lenSp ≤ node_idx + 1 then 0 else node_idx + 1
      let p := spGet sp prev_idx
      let nn := spGet sp next_idx
      let dir1 : Pt := ⟨p.h2.x - spn.pt.x, p.h2.y - spn.pt.y⟩
      let dir2 : Pt := ⟨nn.h0.x - spn.pt.x, nn.h0.y - spn.pt.y⟩
      let _dist1 := rsqrt (dir1.x * dir1.x + dir1.y * dir1.y)
      let _dist2 := rsqrt (dir2.x * dir2.x + dir2.y * dir2.y)
      let handle1 : Pt := ⟨spn.h0.x - spn.pt.x, spn.h0.y - spn.pt.y⟩
      let handle2 : Pt := ⟨spn.h2.x - spn.pt.x, spn.h2.y - spn.pt.y⟩
      let handle1 := if very_close_xy handle1 ⟨0, 0⟩ then dir1 else handle1
      let handle2 := if very_close_xy handle2 ⟨0, 0⟩ then dir2 else handle2
      some (⟨node_idx, ⟨prev_idx, dir1, handle1⟩, ⟨next_idx, dir2, handle2⟩,
             spn.pt.x, spn.pt.y⟩, spn)

/-- The side sign computed at line 532 of the source from the cross product
of the corner node's own two handles. -/
def sideOf (nd : SpN) : Sc :=
  if Sc.blt 0 ((nd.h0.x - nd.pt.x) * (nd.h2.y - nd.pt.y) -
               (nd.h0.y - nd.pt.y) * (nd.h2.x - nd.pt.x))
  then -(1 : Sc) else 1

/-- Fuel for tree construction (far above any subdivision depth reached in
the runs considered here; Python's recursion is unbounded). -/
def buildFuel : Nat := 60

/-- Fuel for the intersection search. -/
def interFuel : Nat := 200

/-- Context of the first tree built in `subpath_round_corner` (bezier from
the previous node to the corner node, eps = 0.001). -/
def mkCtx1 (radius : Sc) (prev_node nd : SpN) : Ctx :=
  ⟨[prev_node.pt.x, prev_node.h2.x, nd.h0.x, nd.pt.x],
   [prev_node.pt.y, prev_node.h2.y, nd.h0.y, nd.pt.y],
   sideOf nd, radius, scMk 1 1000⟩

/-- Context of the second tree (bezier from the corner node to the next
node). -/
def mkCtx2 (radius : Sc) (nd next_node : SpN) : Ctx :=
  ⟨[nd.pt.x, nd.h2.x, next_node.h0.x, next_node.pt.x],
   [nd.pt.y, nd.h2.y, next_node.h0.y, next_node.pt.y],
   sideOf nd, radius, scMk 1 1000⟩

/-- The first offset-curve tree of a corner (source lines 534-542). -/
def mkS1 (radius : Sc) (sp : List SpN) (prev_idx node_idx : Nat) :
    Except Err CenterCurveSegment :=
  buildCC (mkCtx1 radius (spGet sp prev_idx) (spGet sp node_idx)) buildFuel 0 1 none none

/-- The second offset-curve tree of a corner (source lines 544-552). -/
def mkS2 (radius : Sc) (sp : List SpN) (node_idx next_idx : Nat) :
    Except Err CenterCurveSegment :=
  buildCC (mkCtx2 radius (spGet sp node_idx) (spGet sp next_idx)) buildFuel 0 1 none none

/-- Build the two offset-curve trees of a corner and run the intersection
search on them (source lines 534-554), returning the found parameter pair. -/
def cornerIntersect (radius : Sc) (sp : List SpN) (prev_idx node_idx next_idx : Nat) :
    Except Err (Option (Sc × Sc)) :=
  match mkS1 radius sp prev_idx node_idx with
  | .error e => .error e
  | .ok s1 =>
    match mkS2 radius sp node_idx next_idx with
    | .error e => .error e
    | .ok s2 => (intersectCenterCurveSegments interFuel s1 s2).1

/-- Embedding of `split_bezier_curve`: both halves of a cubic bezier at
parameter `t`. -/
def split_bezier_curve (p0 p1 p2 p3 : Pt) (t : Sc) :
    (Pt × Pt × Pt × Pt) × (Pt × Pt × Pt × Pt) :=
  let t1 := 1 - t
  let p10 : Pt := ⟨t1 * p0.x + t * p1.x, t1 * p0.y + t * p1.y⟩
  let p11 : Pt := ⟨t1 * p1.x + t * p2.x, t1 * p1.y + t * p2.y⟩
  let p12 : Pt := ⟨t1 * p2.x + t * p3.x, t1 * p2.y + t * p3.y⟩
  let p20 : Pt := ⟨t1 * p10.x + t * p11.x, t1 * p10.y + t * p11.y⟩
  let p21 : Pt := ⟨t1 * p11.x + t * p12.x, t1 * p11.y + t * p12.y⟩
  let p30 : Pt := ⟨t1 * p20.x + t * p21.x, t1 * p20.y + t * p21.y⟩
  ((p0, p10, p20, p30), (p30, p21, p12, p3))

/-- Embedding of `arc_bezier_handles`: the two control points of the arc
bezier between `p1` and `p4` around center `c`. Python evaluates
`math.sqrt(2*q1*q2)` first (raising on a negative argument) and then divides
by the cross product (raising on exact zero); both raises are modelled as
errors. -/
def arc_bezier_handles (p1 p4 c : Pt) : Except Err (Pt × Pt) :=
  let ax := p1.x - c.x
  let ay := p1.y - c.y
  let bx := p4.x - c.x
  let by2 := p4.y - c.y
  let q1 := ax * ax + ay * ay
  let q2 := q1 + ax * bx + ay * by2
  if Sc.blt (2 * q1 * q2) 0 then .error .negSqrt
  else if (ax * by2 - ay * bx).isZero then .error .zeroDiv
  else
    let k2 := (4 : Sc) / 3 * (rsqrt (2 * q1 * q2) - q2) / (ax * by2 - ay * bx)
    .ok (⟨c.x + ax - k2 * ay, c.y + ay + k2 * ax⟩,
         ⟨c.x + bx + k2 * by2, c.y + by2 - k2 * bx⟩)

/-- The skip-bookkeeping state of a `RoundedCorners` run:
`skipped_degenerated`, `skipped_small_count`, `skipped_small_len`. -/
structure St where
  skipped_degenerated : Nat
  skipped_small_count : Nat
  skipped_small_len : Sc
deriving DecidableEq

/-- The initial bookkeeping state (`skipped_small_len` starts at the huge
sentinel 1e99). -/
def st0 : St := ⟨0, 0, scMk (10 ^ 99) 1⟩

/-- Embedding of `RoundedCorners.subpath_round_corner`. The parameter `mtf`
is the `self.max_trim_factor` attribute that is in scope during the call;
the body never reads it, exactly as in the source. The bookkeeping state is
threaded explicitly and returned with the resulting subpath. -/
def subpath_round_corner (mtf radius : Sc) (st : St) (sp : List SpN) (node_idx : Nat) :
    Except Err (List SpN × St) :=
  let _ := mtf
  match super_node sp node_idx with
  | none => .ok (sp, ⟨st.skipped_degenerated + 1, st.skipped_small_count,
                      st.skipped_small_len⟩)
  | some (sn, _spn) =>
    let prev_idx := sn.prev.idx
    let next_idx := sn.next.idx
    let prev_node := spGet sp prev_idx
    let next_node := spGet sp next_idx
    let nd := spGet sp node_idx
    match cornerIntersect radius sp prev_idx node_idx next_idx with
    | .error e => .error e
    | .ok none => .ok (sp, st)
    | .ok (some (t1, t2)) =>
      match calculate_center_point (mkCtx1 radius prev_node nd) t1 with
      | .error e => .error e
      | .ok arc_c =>
        let s1r := split_bezier_curve prev_node.pt prev_node.h2 nd.h0 nd.pt t1
        let s2r := split_bezier_curve nd.pt nd.h2 next_node.h0 next_node.pt t2
        let p1 := s1r.1.2.1
        let p2 := s1r.1.2.2.1
        let p3 := s1r.1.2.2.2
        let n0 := s2r.2.1
        let n1 := s2r.2.2.1
        let n2 := s2r.2.2.2.1
        let spa := sp.set prev_idx ⟨(spGet sp prev_idx).h0, (spGet sp prev_idx).pt, p1⟩
        let spb := spa.set next_idx ⟨n2, (spGet spa next_idx).pt, (spGet spa next_idx).h2⟩
        match arc_bezier_handles p3 n0 arc_c with
        | .error e => .error e
        | .ok (c1, c2) =>
          let node_a : SpN := ⟨p2, p3, c1⟩
          let node_b : SpN := ⟨c2, n0, n1⟩
          if node_idx = 0 then
            .ok (node_a :: node_b :: ((spb.take (prev_idx + 2)).drop 1), st)
          else
            .ok ((spb.take node_idx) ++ node_a :: node_b :: (spb.drop (node_idx + 1)), st)

/-- Value-level point equality (the represented rational pairs agree). -/
def ptBeq (p q : Pt) : Bool := Sc.beqS p.x q.x && Sc.beqS p.y q.y

/-- A 90-degree corner of two straight segments of length 10 with uniformly
spaced interior handles: previous node (-10,0), corner (0,0), next node
(0,10); the corner is at subpath index 1. -/
def spA : List SpN :=
  [⟨⟨-10, 0⟩, ⟨-10, 0⟩, ⟨scMk (-20) 3, 0⟩⟩,
   ⟨⟨scMk (-10) 3, 0⟩, ⟨0, 0⟩, ⟨0, scMk 10 3⟩⟩,
   ⟨⟨0, scMk 20 3⟩, ⟨0, 10⟩, ⟨0, 10⟩⟩]

/-- A straight-through (180-degree) vertex: three collinear nodes
(-10,0), (0,0), (10,0) on the x-axis with uniformly spaced handles. -/
def spC : List SpN :=
  [⟨⟨-10, 0⟩, ⟨-10, 0⟩, ⟨scMk (-20) 3, 0⟩⟩,
   ⟨⟨scMk (-10) 3, 0⟩, ⟨0, 0⟩, ⟨scMk 10 3, 0⟩⟩,
   ⟨⟨scMk 20 3, 0⟩, ⟨10, 0⟩, ⟨10, 0⟩⟩]

/-- A gently curved cubic (x(t) = 3t, y(t) vanishing at t = 0 and t = 1/4
but not at t = 1/8) with radius 0, used to exhibit a terminal tree node
whose true offset locus leaves the node's bounding box. -/
def ctxC2 : Ctx :=
  ⟨[0, 1, 2, 3], [0, scMk 1 1000, 0, scMk (-27) 1000], 1, 0, scMk 1 1000⟩

/-- Straight segment from (-8,0) to (0,0), uniform handles, side 1,
radius 1: its offset locus is the horizontal segment y = 1, x in [-8,0]. -/
def ctxB1 : Ctx :=
  ⟨[-8, scMk (-16) 3, scMk (-8) 3, 0], [0, 0, 0, 0], 1, 1, scMk 1 1000⟩

/-- Straight segment from (0,0) to (8,0): offset locus y = 1, x in [0,8],
collinear with the `ctxB1` locus. -/
def ctxB2 : Ctx :=
  ⟨[0, scMk 8 3, scMk 16 3, 8], [0, 0, 0, 0], 1, 1, scMk 1 1000⟩

/-- Two-point straight "bezier" from (0,0) to (1,0), side 1, radius 1:
offset locus y = 1. -/
def ctxW : Ctx := ⟨[0, 1], [0, 0], 1, 1, scMk 1 1000⟩

/-- The four coincident control points of a degenerate segment (all at
(2,3)), whose tangent is zero-length everywhere. -/
def ctxDeg : Ctx := ⟨[2, 2, 2, 2], [3, 3, 3, 3], 1, 1, scMk 1 1000⟩

/-- Extract the tree from a successful build (default tree on error; used
only on computations known to succeed). -/
def getOkCC (r : Except Err CenterCurveSegment) : CenterCurveSegment :=
  match r with
  | .ok t => t
  | .error _ => default

/-- First element of the `_segments` child list of an inner node (the node
itself for a terminal). -/
def CenterCurveSegment.child1 : CenterCurveSegment → CenterCurveSegment
| .leaf d => .leaf d
| .node _ a _ => a

/-- The first offset-curve tree of the `spA` corner at radius 99/10. -/
def tA1 : CenterCurveSegment := getOkCC (mkS1 (scMk 99 10) spA 0 1)

/-- The second offset-curve tree of the `spA` corner at radius 99/10. -/
def tA2 : CenterCurveSegment := getOkCC (mkS2 (scMk 99 10) spA 1 2)

/-- Bounding-box membership: the coordinates of `p` in the `dir` frame lie
within the `searchValues` extents `sv`. -/
def inSVB (sv : SV) (dir p : Pt) : Bool :=
  Sc.ble sv.v0 (dir.x * p.x + dir.y * p.y) &&
  Sc.ble (dir.x * p.x + dir.y * p.y) sv.v1 &&
  Sc.ble sv.v2 (-dir.y * p.x + dir.x * p.y) &&
  Sc.ble (-dir.y * p.x + dir.x * p.y) sv.v3

/-- The bounding-box invariant that the construction actually guarantees:
a terminal node's box contains its two chord endpoints, and an inner node's
box contains every hull point of its two children (all in the node's own
search frame). -/
def boxInvB : CenterCurveSegment → Bool
| .leaf dd => inSVB dd.searchValues dd.searchDir dd.p_start &&
              inSVB dd.searchValues dd.searchDir dd.p_end
| .node dd a b =>
    ((a.data.hullPoints ++ b.data.hullPoints).all (inSVB dd.searchValues dd.searchDir)) &&
    boxInvB a && boxInvB b

/-- The subdivision criterion of `CenterCurveSegment.__init__` recomputed
from a node's stored data: parameter range exceeding 0.26, or squared
midpoint deviation exceeding eps squared (`true` if the midpoint offset
computation fails, which cannot happen in a successfully built tree). -/
def critB (c : Ctx) (dd : CCData) : Bool :=
  Sc.blt (scMk 26 100) (dd.t_end - dd.t_start) ||
  (match calculate_center_point c ((dd.t_start + dd.t_end) / 2) with
   | .ok pm =>
      Sc.blt (c.eps * c.eps)
        (((dd.p_start.x + dd.p_end.x) / 2 - pm.x) * ((dd.p_start.x + dd.p_end.x) / 2 - pm.x) +
         ((dd.p_start.y + dd.p_end.y) / 2 - pm.y) * ((dd.p_start.y + dd.p_end.y) / 2 - pm.y))
   | .error _ => true)

/-- Terminality invariant: every node of the tree is terminal exactly when
the subdivision criterion is false at that node. -/
def termInvB (c : Ctx) : CenterCurveSegment → Bool
| .leaf dd => !(critB c dd)
| .node dd a b => critB c dd && termInvB c a && termInvB c b

/-- Two trees are equal up to reversals of `_segments` child lists: all node
data coincides, but the two children of matching inner nodes may appear in
either order. This is the precise invariance class of
`intersectCenterCurveSegments`'s in-place mutation. -/
inductive SwapEq : CenterCurveSegment → CenterCurveSegment → Prop
| leaf (d : CCData) : SwapEq (.leaf d) (.leaf d)
| node (d : CCData) {a b a2 b2 : CenterCurveSegment} :
    SwapEq a a2 → SwapEq b b2 → SwapEq (.node d a b) (.node d a2 b2)
| swap (d : CCData) {a b a2 b2 : CenterCurveSegment} :
    SwapEq a b2 → SwapEq b a2 → SwapEq (.node d a b) (.node d a2 b2)

/-- Dot product, following the spec's vector formulation of the arc-handle
construction. -/
def vdot (u v : Pt) : Sc := u.x * v.x + u.y * v.y

/-- Two-dimensional cross product. -/
def vcross (u v : Pt) : Sc := u.x * v.y - u.y * v.x

/-- Rotation by 90 degrees (counterclockwise in the coordinate convention of
the source). -/
def vrot90 (u : Pt) : Pt := ⟨-u.y, u.x⟩

/-- Modelled from the spec: the arc-handle formula of section 4.4 stated in
vector form. With a = P-C and b = N-C, q1 = a.a, q2 = q1 + a.b,
k2 = (4/3)(sqrt(2 q1 q2) - q2)/(a x b), the handles are P + k2 rot90(a) and
N - k2 rot90(b). -/
def specArcHandles (p1 p4 c : Pt) : Pt × Pt :=
  let a : Pt := ⟨p1.x - c.x, p1.y - c.y⟩
  let b : Pt := ⟨p4.x - c.x, p4.y - c.y⟩
  let q1 := vdot a a
  let q2 := q1 + vdot a b
  let k2 := (4 : Sc) / 3 * (rsqrt (2 * q1 * q2) - q2) / vcross a b
  (⟨p1.x + k2 * (vrot90 a).x, p1.y + k2 * (vrot90 a).y⟩,
   ⟨p4.x - k2 * (vrot90 b).x, p4.y - k2 * (vrot90 b).y⟩)

/-- Modelled from the spec: de Casteljau evaluation of a cubic bezier at
parameter t (section 4.1 `evaluate`), written in closed Bernstein form. -/
def bezier_point (p0 p1 p2 p3 : Pt) (t : Sc) : Pt :=
  let u := 1 - t
  ⟨u * u * u * p0.x + 3 * (u * u * t) * p1.x + 3 * (u * t * t) * p2.x + t * t * t * p3.x,
   u * u * u * p0.y + 3 * (u * u * t) * p1.y + 3 * (u * t * t) * p2.y + t * t * t * p3.y⟩

/-- The terminal tree of `ctxW` over the parameter range [0, 1/4], used as a
concrete instance in witnesses. -/
def leafW : CenterCurveSegment := getOkCC (buildCC ctxW 3 0 (scMk 1 4) none none)

/-- The two-level tree of `ctxW` over [0, 1/2] (one inner node with two
terminal children), used as a concrete instance in witnesses. -/
def treeW : CenterCurveSegment := getOkCC (buildCC ctxW 4 0 (scMk 1 2) none none)

/-- The offset-curve tree of the straight segment `ctxB1` (its offset locus
is the line y = 1 over x in [-8, 0]). -/
def tB1 : CenterCurveSegment := getOkCC (buildCC ctxB1 buildFuel 0 1 none none)

/-- The offset-curve tree of the straight segment `ctxB2` (offset locus
y = 1 over x in [0, 8], collinear with the `tB1` locus). -/
def tB2 : CenterCurveSegment := getOkCC (buildCC ctxB2 buildFuel 0 1 none none)

/-- The `SuperNode` of the `spA` corner at index 1: previous side towards
(-10,0), next side towards (0,10). -/
def snA : SN :=
  ⟨1, ⟨0, ⟨scMk (-20) 3, 0⟩, ⟨scMk (-10) 3, 0⟩⟩,
      ⟨2, ⟨0, scMk 20 3⟩, ⟨0, scMk 10 3⟩⟩, 0, 0⟩

/-- The `spA` corner node itself, as `super_node` returns it. -/
def spnA : SpN := ⟨⟨scMk (-10) 3, 0⟩, ⟨0, 0⟩, ⟨0, scMk 10 3⟩⟩

/-- The circle center of the `spA` corner fitted at radius 99/10. -/
def arcCA : Pt := ⟨scMk (-99) 10, scMk 99 10⟩

/-- First arc control handle of the `spA` corner at radius 99/10 (the x
coordinate carries the 1/100000-precision square-root approximation). -/
def c1A : Pt := ⟨scMk (-2056901797) 464062500, 0⟩

/-- Second arc control handle of the `spA` corner at radius 99/10. -/
def c2A : Pt := ⟨0, scMk 2056901797 464062500⟩

/-- The node data of the terminal tree built from `ctxC2` over [0, 1/4]:
its bounding box degenerates to the x-axis chord (searchValues
(0, 3/4, 0, 0)) although the true offset locus leaves that box. -/
def ddC2 : CCData :=
  ⟨0, scMk 1 4, ⟨0, 0⟩, ⟨scMk 3 4, 0⟩, ⟨1, 0⟩, ⟨0, scMk 3 4, 0, 0⟩,
   [⟨0, 0⟩, ⟨scMk 3 4, 0⟩], 1⟩

/-- The denominator of a scalar is positive as an integer. -/
theorem Sc.denInt_pos (a : Sc) : (0 : Int) < (a.den : Int) := by
  have h : 0 < a.den := Nat.succ_pos a.dm1
  exact_mod_cast h

/-- The denominator of a scalar is a nonzero rational. -/
theorem Sc.denQ_ne (a : Sc) : ((a.den : ℚ)) ≠ 0 := by
  have h : 0 < a.den := Nat.succ_pos a.dm1
  positivity

theorem Sc.ble_refl (a : Sc) : Sc.ble a a = true := by
  simp [Sc.ble]

theorem Sc.ble_trans {a b c : Sc} (h1 : Sc.ble a b = true) (h2 : Sc.ble b c = true) :
    Sc.ble a c = true := by
  simp only [Sc.ble, decide_eq_true_eq] at h1 h2 ⊢
  have h3 := mul_le_mul_of_nonneg_right h1 (le_of_lt (Sc.denInt_pos c))
  have h4 := mul_le_mul_of_nonneg_right h2 (le_of_lt (Sc.denInt_pos a))
  have h5 : a.n * c.den * b.den ≤ c.n * a.den * b.den := by nlinarith
  exact le_of_mul_le_mul_right h5 (Sc.denInt_pos b)

theorem Sc.minS_ble_left (a b : Sc) : Sc.ble (Sc.minS a b) a = true := by
  unfold Sc.minS
  by_cases h : Sc.ble a b = true
  · simp [h, Sc.ble_refl]
  · simp only [h]
    simp only [Sc.ble, decide_eq_true_eq, not_le] at h ⊢
    simp only [Bool.false_eq_true, if_false]
    exact le_of_lt h

theorem Sc.minS_ble_right (a b : Sc) : Sc.ble (Sc.minS a b) b = true := by
  unfold Sc.minS
  by_cases h : Sc.ble a b = true
  · simp [h]
  · simp [h, Sc.ble_refl]

theorem Sc.ble_maxS_left (a b : Sc) : Sc.ble a (Sc.maxS a b) = true := by
  unfold Sc.maxS
  by_cases h : Sc.ble b a = true
  · simp [h, Sc.ble_refl]
  · simp only [h]
    simp only [Sc.ble, decide_eq_true_eq, not_le] at h ⊢
    simp only [Bool.false_eq_true, if_false]
    exact le_of_lt h

theorem Sc.ble_maxS_right (a b : Sc) : Sc.ble b (Sc.maxS a b) = true := by
  unfold Sc.maxS
  by_cases h : Sc.ble b a = true
  · simp [h]
  · simp [h, Sc.ble_refl]

theorem foldl_minS_ble_acc (t : List Sc) (a : Sc) :
    Sc.ble (t.foldl Sc.minS a) a = true := by
  induction t generalizing a with
  | nil => exact Sc.ble_refl a
  | cons h' t' ih =>
    exact Sc.ble_trans (ih (Sc.minS a h')) (Sc.minS_ble_left a h')

theorem foldl_minS_ble_mem (t : List Sc) (a x : Sc) (hx : x ∈ t) :
    Sc.ble (t.foldl Sc.minS a) x = true := by
  induction t generalizing a with
  | nil => cases hx
  | cons h' t' ih =>
    rcases List.mem_cons.mp hx with rfl | hmem'
    · exact Sc.ble_trans (foldl_minS_ble_acc t' (Sc.minS a x)) (Sc.minS_ble_right a x)
    · exact ih (Sc.minS a h') hmem'

theorem foldl_maxS_ble_acc (t : List Sc) (a : Sc) :
    Sc.ble a (t.foldl Sc.maxS a) = true := by
  induction t generalizing a with
  | nil => exact Sc.ble_refl a
  | cons h' t' ih =>
    exact Sc.ble_trans (Sc.ble_maxS_left a h') (ih (Sc.maxS a h'))

theorem foldl_maxS_ble_mem (t : List Sc) (a x : Sc) (hx : x ∈ t) :
    Sc.ble x (t.foldl Sc.maxS a) = true := by
  induction t generalizing a with
  | nil => cases hx
  | cons h' t' ih =>
    rcases List.mem_cons.mp hx with rfl | hmem'
    · exact Sc.ble_trans (Sc.ble_maxS_right a x) (foldl_maxS_ble_acc t' (Sc.maxS a x))
    · exact ih (Sc.maxS a h') hmem'

theorem minL_ble_mem {l : List Sc} {x : Sc} (hx : x ∈ l) : Sc.ble (minL l) x = true := by
  cases l with
  | nil => cases hx
  | cons h t =>
    rcases List.mem_cons.mp hx with rfl | hmem
    · exact foldl_minS_ble_acc t x
    · exact foldl_minS_ble_mem t h x hmem

theorem ble_maxL_mem {l : List Sc} {x : Sc} (hx : x ∈ l) : Sc.ble x (maxL l) = true := by
  cases l with
  | nil => cases hx
  | cons h t =>
    rcases List.mem_cons.mp hx with rfl | hmem
    · exact foldl_maxS_ble_acc t x
    · exact foldl_maxS_ble_mem t h x hmem

/-- A point of a hull lies within the search values computed from that hull. -/
theorem inSVB_chsv {hull : List Pt} {dir p : Pt} (hp : p ∈ hull) :
    inSVB (convexHullSearchValues hull dir) dir p = true := by
  unfold inSVB convexHullSearchValues
  simp only [Bool.and_eq_true]
  have hpar : (dir.x * p.x + dir.y * p.y) ∈
      hull.map (fun q => dir.x * q.x + dir.y * q.y) :=
    List.mem_map_of_mem _ hp
  have horth : (-dir.y * p.x + dir.x * p.y) ∈
      hull.map (fun q => -dir.y * q.x + dir.x * q.y) :=
    List.mem_map_of_mem _ hp
  exact ⟨⟨⟨minL_ble_mem hpar, ble_maxL_mem hpar⟩, minL_ble_mem horth⟩, ble_maxL_mem horth⟩

/-- Membership in a box is preserved when widening by the elementwise
min/max combination with another box (left operand). -/
theorem inSVB_minmax_left {s1 s2 : SV} {dir p : Pt} (h : inSVB s1 dir p = true) :
    inSVB ⟨Sc.minS s1.v0 s2.v0, Sc.maxS s1.v1 s2.v1,
           Sc.minS s1.v2 s2.v2, Sc.maxS s1.v3 s2.v3⟩ dir p = true := by
  unfold inSVB at h ⊢
  simp only [Bool.and_eq_true] at h ⊢
  obtain ⟨⟨⟨h1, h2⟩, h3⟩, h4⟩ := h
  exact ⟨⟨⟨Sc.ble_trans (Sc.minS_ble_left _ _) h1, Sc.ble_trans h2 (Sc.ble_maxS_left _ _)⟩,
          Sc.ble_trans (Sc.minS_ble_left _ _) h3⟩, Sc.ble_trans h4 (Sc.ble_maxS_left _ _)⟩

/-- Membership in a box is preserved when widening by the elementwise
min/max combination with another box (right operand). -/
theorem inSVB_minmax_right {s1 s2 : SV} {dir p : Pt} (h : inSVB s2 dir p = true) :
    inSVB ⟨Sc.minS s1.v0 s2.v0, Sc.maxS s1.v1 s2.v1,
           Sc.minS s1.v2 s2.v2, Sc.maxS s1.v3 s2.v3⟩ dir p = true := by
  unfold inSVB at h ⊢
  simp only [Bool.and_eq_true] at h ⊢
  obtain ⟨⟨⟨h1, h2⟩, h3⟩, h4⟩ := h
  exact ⟨⟨⟨Sc.ble_trans (Sc.minS_ble_right _ _) h1, Sc.ble_trans h2 (Sc.ble_maxS_right _ _)⟩,
          Sc.ble_trans (Sc.minS_ble_right _ _) h3⟩, Sc.ble_trans h4 (Sc.ble_maxS_right _ _)⟩

/-- If every tree produced by the recursive call satisfies the bounding-box
invariant, so does every tree produced by one constructor step. -/
theorem boxInv_of_buildStep (c : Ctx)
    (rec2 : Sc → Sc → Option Pt → Option Pt → Except Err CenterCurveSegment)
    (hrec : ∀ ts te ops ope t, rec2 ts te ops ope = .ok t → boxInvB t = true)
    (ts te : Sc) (ops ope : Option Pt) (t : CenterCurveSegment)
    (h : buildStep c rec2 ts te ops ope = .ok t) : boxInvB t = true := by
  unfold buildStep at h
  split at h
  · exact absurd h (by simp)
  split at h
  · exact absurd h (by simp)
  split at h
  · exact absurd h (by simp)
  next ps hps =>
  split at h
  · exact absurd h (by simp)
  next pe hpe =>
  dsimp only at h
  split at h
  · exact absurd h (by simp)
  split at h
  · exact absurd h (by simp)
  next pm hpm =>
  split at h
  · -- subdivision branch
    split at h
    · exact absurd h (by simp)
    next c1 hc1 =>
    split at h
    · exact absurd h (by simp)
    next c2 hc2 =>
    simp only [Except.ok.injEq] at h
    subst h
    unfold boxInvB
    simp only [Bool.and_eq_true, List.all_eq_true]
    refine ⟨⟨fun p hp => ?_, hrec _ _ _ _ _ hc1⟩, hrec _ _ _ _ _ hc2⟩
    rcases List.mem_append.mp hp with hpa | hpb
    · exact inSVB_minmax_left (inSVB_chsv hpa)
    · exact inSVB_minmax_right (inSVB_chsv hpb)
  · -- terminal branch
    simp only [Except.ok.injEq] at h
    subst h
    unfold boxInvB
    simp only [Bool.and_eq_true]
    exact ⟨inSVB_chsv (by simp [ccLeafData]), inSVB_chsv (by simp [ccLeafData])⟩

/-- Every successfully built offset-curve tree satisfies the bounding-box
invariant `boxInvB`. -/
theorem boxInv_of_buildCC : ∀ (fuel : Nat) (c : Ctx) (ts te : Sc) (ops ope : Option Pt)
    (t : CenterCurveSegment), buildCC c fuel ts te ops ope = .ok t → boxInvB t = true := by
  intro fuel
  induction fuel with
  | zero =>
    intro c ts te ops ope t h
    simp [buildCC] at h
  | succ fuel ih =>
    intro c ts te ops ope t h
    rw [buildCC] at h
    exact boxInv_of_buildStep c (buildCC c fuel) (ih c) ts te ops ope t h

/-- If every tree produced by the recursive call satisfies the terminality
invariant, so does every tree produced by one constructor step. -/
theorem termInv_of_buildStep (c : Ctx)
    (rec2 : Sc → Sc → Option Pt → Option Pt → Except Err CenterCurveSegment)
    (hrec : ∀ ts te ops ope t, rec2 ts te ops ope = .ok t → termInvB c t = true)
    (ts te : Sc) (ops ope : Option Pt) (t : CenterCurveSegment)
    (h : buildStep c rec2 ts te ops ope = .ok t) : termInvB c t = true := by
  unfold buildStep at h
  split at h
  · exact absurd h (by simp)
  split at h
  · exact absurd h (by simp)
  split at h
  · exact absurd h (by simp)
  next ps hps =>
  split at h
  · exact absurd h (by simp)
  next pe hpe =>
  dsimp only at h
  split at h
  · exact absurd h (by simp)
  split at h
  · exact absurd h (by simp)
  next pm hpm =>
  split at h
  next hcond =>
    -- subdivision branch: the criterion is true at this node
    split at h
    · exact absurd h (by simp)
    next c1 hc1 =>
    split at h
    · exact absurd h (by simp)
    next c2 hc2 =>
    simp only [Except.ok.injEq] at h
    subst h
    unfold termInvB
    simp only [Bool.and_eq_true]
    refine ⟨⟨?_, hrec _ _ _ _ _ hc1⟩, hrec _ _ _ _ _ hc2⟩
    simp only [critB, ccNodeData]
    rw [hpm]
    exact hcond
  next hcond =>
    -- terminal branch: the criterion is false at this node
    simp only [Except.ok.injEq] at h
    subst h
    unfold termInvB
    simp only [Bool.not_eq_true']
    simp only [critB, ccLeafData]
    rw [hpm]
    exact eq_false_of_ne_true hcond

/-- In every successfully built offset-curve tree, a node is terminal exactly
when the subdivision criterion (parameter range exceeding 0.26, or squared
midpoint deviation exceeding eps squared) is false at that node. -/
theorem termInv_of_buildCC : ∀ (fuel : Nat) (c : Ctx) (ts te : Sc) (ops ope : Option Pt)
    (t : CenterCurveSegment), buildCC c fuel ts te ops ope = .ok t → termInvB c t = true := by
  intro fuel
  induction fuel with
  | zero =>
    intro c ts te ops ope t h
    simp [buildCC] at h
  | succ fuel ih =>
    intro c ts te ops ope t h
    rw [buildCC] at h
    exact termInv_of_buildStep c (buildCC c fuel) (ih c) ts te ops ope t h

/-- `SwapEq` is reflexive. -/
theorem SwapEq.rfl : ∀ t : CenterCurveSegment, SwapEq t t
| .leaf d => SwapEq.leaf d
| .node d a b => SwapEq.node d (SwapEq.rfl a) (SwapEq.rfl b)

/-- `SwapEq` is transitive. -/
theorem SwapEq.transSE {x y z : CenterCurveSegment}
    (h1 : SwapEq x y) (h2 : SwapEq y z) : SwapEq x z := by
  induction h1 generalizing z with
  | leaf d => exact h2
  | node d ha hb iha ihb =>
    cases h2 with
    | node _ ha2 hb2 => exact SwapEq.node d (iha ha2) (ihb hb2)
    | swap _ ha2 hb2 => exact SwapEq.swap d (iha ha2) (ihb hb2)
  | swap d ha hb iha ihb =>
    cases h2 with
    | node _ ha2 hb2 => exact SwapEq.swap d (iha hb2) (ihb ha2)
    | swap _ ha2 hb2 => exact SwapEq.node d (iha hb2) (ihb ha2)

/-- One intersection step only reorders children: if the recursive call
returns trees `SwapEq`-equivalent to its arguments, so does the step. -/
theorem swapEq_interStep
    (g : CenterCurveSegment → CenterCurveSegment →
      (Except Err (Option (Sc × Sc))) × CenterCurveSegment × CenterCurveSegment)
    (hg : ∀ x y, SwapEq x (g x y).2.1 ∧ SwapEq y (g x y).2.2)
    (s1 s2 : CenterCurveSegment) :
    SwapEq s1 (interStep g s1 s2).2.1 ∧ SwapEq s2 (interStep g s1 s2).2.2 := by
  cases s1 with
  | leaf e1 =>
    cases s2 with
    | leaf e2 =>
      unfold interStep
      dsimp only
      split
      · exact ⟨SwapEq.rfl _, SwapEq.rfl _⟩
      split
      · exact ⟨SwapEq.rfl _, SwapEq.rfl _⟩
      split
      · split
        · exact ⟨SwapEq.rfl _, SwapEq.rfl _⟩
        · exact ⟨SwapEq.rfl _, SwapEq.rfl _⟩
      split
      · exact ⟨SwapEq.rfl _, SwapEq.rfl _⟩
      split
      · exact ⟨SwapEq.rfl _, SwapEq.rfl _⟩
      · exact hg _ _
    | node e2 cc dd =>
      unfold interStep
      dsimp only
      split
      · exact ⟨SwapEq.rfl _, SwapEq.rfl _⟩
      split
      · exact ⟨SwapEq.rfl _, SwapEq.rfl _⟩
      split
      · split
        · exact ⟨SwapEq.rfl _, SwapEq.rfl _⟩
        · exact ⟨SwapEq.rfl _, SwapEq.rfl _⟩
      split
      · exact ⟨SwapEq.rfl _, SwapEq.rfl _⟩
      split
      · obtain ⟨h1a, h1b⟩ := hg (.leaf e1) cc
        split
        · exact ⟨h1a, SwapEq.node e2 h1b (SwapEq.rfl dd)⟩
        obtain ⟨h2a, h2b⟩ := hg (g (.leaf e1) cc).2.1 dd
        exact ⟨SwapEq.transSE h1a h2a, SwapEq.node e2 h1b h2b⟩
      · exact hg _ _
  | node e1 a b =>
    cases s2 with
    | leaf e2 =>
      unfold interStep
      dsimp only
      split
      · exact ⟨SwapEq.rfl _, SwapEq.rfl _⟩
      split
      · exact ⟨SwapEq.rfl _, SwapEq.rfl _⟩
      split
      · split
        · exact ⟨SwapEq.rfl _, SwapEq.rfl _⟩
        · exact ⟨SwapEq.rfl _, SwapEq.rfl _⟩
      split
      · split
        · exact ⟨SwapEq.swap e1 (SwapEq.rfl a) (SwapEq.rfl b), SwapEq.rfl _⟩
        · obtain ⟨h1a, h1b⟩ := hg b (.leaf e2)
          split
          · exact ⟨SwapEq.swap e1 (SwapEq.rfl a) h1a, h1b⟩
          obtain ⟨h2a, h2b⟩ := hg a (g b (.leaf e2)).2.2
          exact ⟨SwapEq.swap e1 h2a h1a, SwapEq.transSE h1b h2b⟩
      · split
        · exact ⟨SwapEq.rfl _, SwapEq.rfl _⟩
        · exact hg _ _
    | node e2 cc dd =>
      unfold interStep
      dsimp only
      split
      · exact ⟨SwapEq.rfl _, SwapEq.rfl _⟩
      split
      · exact ⟨SwapEq.rfl _, SwapEq.rfl _⟩
      split
      · split
        · exact ⟨SwapEq.rfl _, SwapEq.rfl _⟩
        · exact ⟨SwapEq.rfl _, SwapEq.rfl _⟩
      split
      · split
        · obtain ⟨h1a, h1b⟩ := hg b cc
          split
          · exact ⟨SwapEq.swap e1 (SwapEq.rfl a) h1a,
                   SwapEq.node e2 h1b (SwapEq.rfl dd)⟩
          obtain ⟨h2a, h2b⟩ := hg (g b cc).2.1 dd
          split
          · exact ⟨SwapEq.swap e1 (SwapEq.rfl a) (SwapEq.transSE h1a h2a),
                   SwapEq.node e2 h1b h2b⟩
          obtain ⟨h3a, h3b⟩ := hg a (g b cc).2.2
          split
          · exact ⟨SwapEq.swap e1 h3a (SwapEq.transSE h1a h2a),
                   SwapEq.node e2 (SwapEq.transSE h1b h3b) h2b⟩
          obtain ⟨h4a, h4b⟩ := hg (g a (g b cc).2.2).2.1 (g (g b cc).2.1 dd).2.2
          exact ⟨SwapEq.swap e1 (SwapEq.transSE h3a h4a) (SwapEq.transSE h1a h2a),
                 SwapEq.node e2 (SwapEq.transSE h1b h3b) (SwapEq.transSE h2b h4b)⟩
        · obtain ⟨h1a, h1b⟩ := hg b (.node e2 cc dd)
          split
          · exact ⟨SwapEq.swap e1 (SwapEq.rfl a) h1a, h1b⟩
          obtain ⟨h2a, h2b⟩ := hg a (g b (.node e2 cc dd)).2.2
          exact ⟨SwapEq.swap e1 h2a h1a, SwapEq.transSE h1b h2b⟩
      · split
        · obtain ⟨h1a, h1b⟩ := hg (.node e1 a b) cc
          split
          · exact ⟨h1a, SwapEq.node e2 h1b (SwapEq.rfl dd)⟩
          obtain ⟨h2a, h2b⟩ := hg (g (.node e1 a b) cc).2.1 dd
          exact ⟨SwapEq.transSE h1a h2a, SwapEq.node e2 h1b h2b⟩
        · exact hg _ _

/-- The intersection search mutates its argument trees only by reversing
child lists: the post-call state of each tree is `SwapEq`-equivalent to its
input state, and all node data is preserved. -/
theorem swapEq_intersect : ∀ (fuel : Nat) (s1 s2 : CenterCurveSegment),
    SwapEq s1 (intersectCenterCurveSegments fuel s1 s2).2.1 ∧
    SwapEq s2 (intersectCenterCurveSegments fuel s1 s2).2.2 := by
  intro fuel
  induction fuel with
  | zero =>
    intro s1 s2
    exact ⟨SwapEq.rfl s1, SwapEq.rfl s2⟩
  | succ fuel ih =>
    intro s1 s2
    rw [intersectCenterCurveSegments]
    exact swapEq_interStep (intersectCenterCurveSegments fuel) ih s1 s2

/-- Reduction preserves the represented rational value. -/
theorem Sc.toQ_mkRed (x : Int) (dd : Nat) (hdd : 0 < dd) :
    (Sc.mkRed x dd).toQ = (x : ℚ) / (dd : ℚ) := by
  unfold Sc.mkRed Sc.toQ Sc.den
  set g := Nat.gcd x.natAbs dd with hg
  have hgpos : 0 < g := Nat.gcd_pos_of_pos_right _ hdd
  have hgx : (g : ℤ) ∣ x := Int.natCast_dvd.mpr (Nat.gcd_dvd_left _ _)
  have hgd : g ∣ dd := Nat.gcd_dvd_right _ _
  have hdiv : 0 < dd / g := Nat.div_pos (Nat.le_of_dvd hdd hgd) hgpos
  have hden : (dd / g - 1) + 1 = dd / g := by omega
  dsimp only
  rw [hden]
  rw [Int.cast_div_charZero hgx]
  rw [Nat.cast_div hgd (by exact_mod_cast hgpos.ne')]
  have hgQ : ((g : ℤ) : ℚ) ≠ 0 := by exact_mod_cast hgpos.ne'
  have hgQ2 : ((g : ℕ) : ℚ) ≠ 0 := by exact_mod_cast hgpos.ne'
  have hddQ : ((dd : ℕ) : ℚ) ≠ 0 := by exact_mod_cast hdd.ne'
  field_simp

/-- Reduced scalars are in lowest terms. -/
theorem Sc.mkRed_coprime (x : Int) (dd : Nat) (hdd : 0 < dd) :
    Nat.Coprime (Sc.mkRed x dd).n.natAbs (Sc.mkRed x dd).den := by
  unfold Sc.mkRed Sc.den
  set g := Nat.gcd x.natAbs dd with hg
  have hgpos : 0 < g := Nat.gcd_pos_of_pos_right _ hdd
  have hgd : g ∣ dd := Nat.gcd_dvd_right _ _
  have hdiv : 0 < dd / g := Nat.div_pos (Nat.le_of_dvd hdd hgd) hgpos
  have hden : (dd / g - 1) + 1 = dd / g := by omega
  dsimp only
  rw [hden]
  rw [Int.natAbs_ediv _ _ (Int.natCast_dvd.mpr (Nat.gcd_dvd_left _ _))]
  simpa using Nat.coprime_div_gcd_div_gcd (m := x.natAbs) (n := dd) hgpos

/-- Two scalars in lowest terms representing the same rational are equal. -/
theorem Sc.eq_of_coprime_of_toQ_eq {a b : Sc}
    (ha : Nat.Coprime a.n.natAbs a.den) (hb : Nat.Coprime b.n.natAbs b.den)
    (h : a.toQ = b.toQ) : a = b := by
  unfold Sc.toQ at h
  rw [div_eq_div_iff (Sc.denQ_ne a) (Sc.denQ_ne b)] at h
  have hint : a.n * b.den = b.n * a.den := by exact_mod_cast h
  have habs : a.n.natAbs * b.den = b.n.natAbs * a.den := by
    have h2 := congrArg Int.natAbs hint
    simpa [Int.natAbs_mul] using h2
  have hd1 : a.den ∣ b.den := by
    have hdvd : a.den ∣ a.n.natAbs * b.den := ⟨b.n.natAbs, by rw [habs]; ring⟩
    exact Nat.Coprime.dvd_of_dvd_mul_left ha.symm hdvd
  have hd2 : b.den ∣ a.den := by
    have hdvd : b.den ∣ b.n.natAbs * a.den := ⟨a.n.natAbs, by rw [← habs]; ring⟩
    exact Nat.Coprime.dvd_of_dvd_mul_left hb.symm hdvd
  have hden : a.den = b.den := Nat.dvd_antisymm hd1 hd2
  have hdint : ((a.den : Nat) : ℤ) = ((b.den : Nat) : ℤ) := by exact_mod_cast hden
  rw [← hdint] at hint
  have hn : a.n = b.n :=
    mul_right_cancel₀ (by exact_mod_cast (Sc.denInt_pos a).ne') hint
  have hdm : a.dm1 = b.dm1 := by
    unfold Sc.den at hden
    omega
  cases a
  cases b
  simp_all

theorem Sc.den_pos (a : Sc) : 0 < a.den := Nat.succ_pos a.dm1

theorem Sc.toQ_add (a b : Sc) : (a + b).toQ = a.toQ + b.toQ := by
  show (Sc.add a b).toQ = _
  unfold Sc.add
  rw [Sc.toQ_mkRed _ _ (Nat.mul_pos a.den_pos b.den_pos)]
  unfold Sc.toQ
  have h1 := Sc.denQ_ne a
  have h2 := Sc.denQ_ne b
  push_cast
  field_simp

theorem Sc.toQ_mul (a b : Sc) : (a * b).toQ = a.toQ * b.toQ := by
  show (Sc.mul a b).toQ = _
  unfold Sc.mul
  rw [Sc.toQ_mkRed _ _ (Nat.mul_pos a.den_pos b.den_pos)]
  unfold Sc.toQ
  have h1 := Sc.denQ_ne a
  have h2 := Sc.denQ_ne b
  push_cast
  field_simp

theorem Sc.toQ_neg (a : Sc) : (-a).toQ = -a.toQ := by
  show (Sc.neg a).toQ = _
  unfold Sc.neg Sc.toQ Sc.den
  push_cast
  ring

theorem Sc.toQ_sub (a b : Sc) : (a - b).toQ = a.toQ - b.toQ := by
  show (Sc.sub a b).toQ = _
  unfold Sc.sub
  have h : (Sc.add a (Sc.neg b)).toQ = a.toQ + (Sc.neg b).toQ := Sc.toQ_add a (Sc.neg b)
  rw [h]
  have h2 : (Sc.neg b).toQ = -b.toQ := Sc.toQ_neg b
  rw [h2]
  ring

theorem Sc.toQ_inv (a : Sc) : (Sc.inv a).toQ = (a.toQ)⁻¹ := by
  unfold Sc.inv
  by_cases hpos : 0 < a.n
  · rw [if_pos hpos]
    unfold Sc.toQ Sc.den
    dsimp only
    rw [show a.n.toNat - 1 + 1 = a.n.toNat by omega]
    rw [inv_div]
    have hcast : ((a.n.toNat : ℕ) : ℚ) = ((a.n : ℤ) : ℚ) := by
      exact_mod_cast congrArg (fun z => ((z : ℤ) : ℚ)) (Int.toNat_of_nonneg hpos.le)
    rw [hcast]
    push_cast
    ring
  · rw [if_neg hpos]
    by_cases hneg : a.n < 0
    · rw [if_pos hneg]
      unfold Sc.toQ Sc.den
      dsimp only
      rw [show (-a.n).toNat - 1 + 1 = (-a.n).toNat by omega]
      rw [inv_div]
      have hcast : (((-a.n).toNat : ℕ) : ℚ) = ((-a.n : ℤ) : ℚ) := by
        exact_mod_cast congrArg (fun z => ((z : ℤ) : ℚ)) (Int.toNat_of_nonneg (by omega))
      rw [hcast]
      push_cast
      rw [neg_div_neg_eq]
    · rw [if_neg hneg]
      have hz : a.n = 0 := by omega
      unfold Sc.toQ Sc.den
      rw [hz]
      norm_num

theorem Sc.toQ_div (a b : Sc) : (a / b).toQ = a.toQ / b.toQ := by
  show (Sc.mul a (Sc.inv b)).toQ = _
  have h : (Sc.mul a (Sc.inv b)).toQ = a.toQ * (Sc.inv b).toQ := Sc.toQ_mul a (Sc.inv b)
  rw [h, Sc.toQ_inv, div_eq_mul_inv]

theorem Sc.toQ_ofNat (k : Nat) : (OfNat.ofNat k : Sc).toQ = (k : ℚ) := by
  show (scMk (Int.ofNat k) 1).toQ = _
  unfold scMk
  rw [if_pos Nat.one_pos]
  rw [Sc.toQ_mkRed _ _ Nat.one_pos]
  simp

theorem Sc.toQ_one : (1 : Sc).toQ = 1 := by rw [Sc.toQ_ofNat 1]; norm_num

theorem Sc.toQ_two : (2 : Sc).toQ = 2 := by rw [Sc.toQ_ofNat 2]; norm_num

theorem Sc.toQ_three : (3 : Sc).toQ = 3 := by rw [Sc.toQ_ofNat 3]; norm_num

theorem Sc.toQ_four : (4 : Sc).toQ = 4 := by rw [Sc.toQ_ofNat 4]; norm_num

/-- Value equality of scalars is equality of the represented rationals. -/
theorem Sc.beqS_eq_true_iff (a b : Sc) : Sc.beqS a b = true ↔ a.toQ = b.toQ := by
  unfold Sc.beqS Sc.toQ
  rw [beq_iff_eq, div_eq_div_iff (Sc.denQ_ne a) (Sc.denQ_ne b)]
  constructor
  · intro h
    exact_mod_cast h
  · intro h
    exact_mod_cast h

/-- A product is always in lowest terms (its outermost operation reduces). -/
theorem Sc.mul_coprime (a b : Sc) :
    Nat.Coprime ((a * b).n.natAbs) ((a * b).den) := by
  show Nat.Coprime ((Sc.mul a b).n.natAbs) ((Sc.mul a b).den)
  unfold Sc.mul
  exact Sc.mkRed_coprime _ _ (Nat.mul_pos a.den_pos b.den_pos)

/-- The boundary point shared by the two halves of `split_bezier_curve` is
exactly the de Casteljau evaluation of the cubic at the split parameter. -/
theorem split_bezier_boundary (p0 p1 p2 p3 : Pt) (t : Sc) :
    ptBeq (split_bezier_curve p0 p1 p2 p3 t).1.2.2.2 (bezier_point p0 p1 p2 p3 t) = true ∧
    (split_bezier_curve p0 p1 p2 p3 t).2.1 = (split_bezier_curve p0 p1 p2 p3 t).1.2.2.2 := by
  constructor
  · unfold split_bezier_curve bezier_point ptBeq
    dsimp only
    simp only [Bool.and_eq_true, Sc.beqS_eq_true_iff]
    constructor
    · simp only [Sc.toQ_add, Sc.toQ_sub, Sc.toQ_mul, Sc.toQ_one, Sc.toQ_three]
      ring
    · simp only [Sc.toQ_add, Sc.toQ_sub, Sc.toQ_mul, Sc.toQ_one, Sc.toQ_three]
      ring
  · unfold split_bezier_curve
    dsimp only

/-- When `arc_bezier_handles` succeeds, its two control points agree (as
rational values) with the spec's vector formula `specArcHandles`. -/
theorem arc_bezier_handles_matches_spec (p1 p4 c : Pt) (u1 u2 : Pt)
    (h : arc_bezier_handles p1 p4 c = .ok (u1, u2)) :
    ptBeq u1 (specArcHandles p1 p4 c).1 = true ∧
    ptBeq u2 (specArcHandles p1 p4 c).2 = true := by
  unfold arc_bezier_handles at h
  dsimp only at h
  split at h
  · exact absurd h (by simp)
  split at h
  · exact absurd h (by simp)
  simp only [Except.ok.injEq, Prod.mk.injEq] at h
  obtain ⟨h1, h2⟩ := h
  subst h1
  subst h2
  have hX : (2 * ((p1.x - c.x) * (p1.x - c.x) + (p1.y - c.y) * (p1.y - c.y)) *
      ((p1.x - c.x) * (p1.x - c.x) + (p1.y - c.y) * (p1.y - c.y) +
        (p1.x - c.x) * (p4.x - c.x) + (p1.y - c.y) * (p4.y - c.y))) =
      (2 * vdot ⟨p1.x - c.x, p1.y - c.y⟩ ⟨p1.x - c.x, p1.y - c.y⟩ *
      (vdot ⟨p1.x - c.x, p1.y - c.y⟩ ⟨p1.x - c.x, p1.y - c.y⟩ +
        vdot ⟨p1.x - c.x, p1.y - c.y⟩ ⟨p4.x - c.x, p4.y - c.y⟩)) := by
    apply Sc.eq_of_coprime_of_toQ_eq (Sc.mul_coprime _ _) (Sc.mul_coprime _ _)
    unfold vdot
    dsimp only
    simp only [Sc.toQ_add, Sc.toQ_sub, Sc.toQ_mul, Sc.toQ_two]
    ring
  unfold specArcHandles ptBeq
  dsimp only
  rw [← hX]
  unfold vdot vcross vrot90
  dsimp only
  simp only [Bool.and_eq_true, Sc.beqS_eq_true_iff]
  refine ⟨⟨?_, ?_⟩, ?_, ?_⟩ <;>
  · simp only [Sc.toQ_add, Sc.toQ_sub, Sc.toQ_mul, Sc.toQ_neg, Sc.toQ_div, Sc.toQ_two,
      Sc.toQ_three, Sc.toQ_four]
    ring

/-- Claim C1: the spec says a (near) zero determinant in the leaf-leaf
intersection test reports "no intersection at this leaf pair" and the search
continues elsewhere, never raising a hard failure. In the code the det == 0
case instead raises `Exception("det = 0 case not implemented yet")`: on the
two collinear straight offset loci `tB1`, `tB2` (which pass every box test
down to a leaf pair with parallel chords) the search returns the hard error
`detZero` out of `intersectCenterCurveSegments`. -/
theorem leafLeaf_detZero_raises :
    buildCC ctxB1 buildFuel 0 1 none none = .ok tB1 ∧
    buildCC ctxB2 buildFuel 0 1 none none = .ok tB2 ∧
    (intersectCenterCurveSegments interFuel tB1 tB2).1 = .error .detZero := by
  decide

/-- Claim C2 (amended): the invariant the construction actually guarantees
is that every successfully built offset-curve tree satisfies `boxInvB`: a
terminal node's box contains its two chord endpoints and an inner node's box
contains every hull point of its children. The spec's stronger reading (the
box contains the whole true offset locus of the parameter range) is refuted
by `offset_midpoint_escapes_box`. -/
theorem builtTree_box_contains_hulls (fuel : Nat) (c : Ctx) (ts te : Sc)
    (ops ope : Option Pt) (t : CenterCurveSegment)
    (h : buildCC c fuel ts te ops ope = .ok t) : boxInvB t = true :=
  boxInv_of_buildCC fuel c ts te ops ope t h

/-- Witness for C2: the box invariant on the concretely built terminal tree
`leafW`. -/
theorem builtTree_box_contains_hulls_witness : boxInvB leafW = true :=
  builtTree_box_contains_hulls 3 ctxW 0 (scMk 1 4) none none leafW (by decide)

/-- Counterexample for C2 as literally stated: the tree built from `ctxC2`
over [0, 1/4] is the terminal node `ddC2`, the parameter 1/8 lies in its
range, but the true offset-curve point at 1/8 (the curve point itself, since
the radius is 0) lies outside the node's bounding box: the box has zero
extent across the chord while the true locus does not. -/
theorem offset_midpoint_escapes_box :
    buildCC ctxC2 3 0 (scMk 1 4) none none = .ok (.leaf ddC2) ∧
    Sc.ble ddC2.t_start (scMk 1 8) = true ∧
    Sc.ble (scMk 1 8) ddC2.t_end = true ∧
    calculate_center_point ctxC2 (scMk 1 8) = .ok ⟨scMk 3 8, scMk 3 12800⟩ ∧
    inSVB ddC2.searchValues ddC2.searchDir ⟨scMk 3 8, scMk 3 12800⟩ = false := by
  decide

/-- Claim C3 (amended): `subpath_round_corner` never consults
`max_trim_factor`; its result is the same for every value of that attribute.
The spec's claim that an over-long trim is skipped is refuted by
`overlong_trim_still_fitted`. -/
theorem subpath_ignores_max_trim_factor (m1 m2 radius : Sc) (st : St)
    (sp : List SpN) (node_idx : Nat) :
    subpath_round_corner m1 radius st sp node_idx =
    subpath_round_corner m2 radius st sp node_idx := rfl

/-- Counterexample for C3 as literally stated: at radius 99/10 on the `spA`
corner the trim fraction along the second segment is 99/100, far above the
default `max_trim_factor` of 9/10, yet the corner is fitted (the returned
subpath differs from the untouched `(spA, st0)` skip result). -/
theorem overlong_trim_still_fitted :
    cornerIntersect (scMk 99 10) spA 0 1 2 = .ok (some (scMk 1 100, scMk 99 100)) ∧
    Sc.blt (scMk 9 10) (scMk 99 100) = true ∧
    subpath_round_corner (scMk 9 10) (scMk 99 10) st0 spA 1 ≠ .ok (spA, st0) := by
  decide

/-- Claim C4: the spec says an antiparallel (180 degree) corner is counted
as a skipped degenerate vertex and leaves the subpath unchanged. The code
has no antiparallel check: on the collinear corner `spC` the super node is
built normally and the run instead raises the det = 0 exception from the
intersection search. -/
theorem antiparallel_corner_raises_detZero :
    (super_node spC 1).isSome = true ∧
    subpath_round_corner (scMk 9 10) 1 st0 spC 1 = .error .detZero := by
  decide

/-- Claim C5 (amended): when the intersection search finds no intersection
anywhere in the two offset trees, `subpath_round_corner` returns the
subpath and the bookkeeping state both unchanged; contrary to the spec, the
skipped-small counter is not incremented and no shortfall length is
recorded (see `no_intersection_counters_not_updated`). -/
theorem no_intersection_returns_unchanged (mtf radius : Sc) (st : St)
    (sp : List SpN) (node_idx : Nat) (sn : SN) (spn : SpN)
    (h1 : super_node sp node_idx = some (sn, spn))
    (h2 : cornerIntersect radius sp sn.prev.idx node_idx sn.next.idx = .ok none) :
    subpath_round_corner mtf radius st sp node_idx = .ok (sp, st) := by
  unfold subpath_round_corner
  rw [h1]
  dsimp only
  rw [h2]

/-- Witness for C5: radius 11 does not fit into the `spA` corner, and the
run returns the subpath and state unchanged. -/
theorem no_intersection_returns_unchanged_witness :
    subpath_round_corner 0 (scMk 11 1) st0 spA 1 = .ok (spA, st0) :=
  no_intersection_returns_unchanged 0 (scMk 11 1) st0 spA 1 snA spnA
    (by decide) (by decide)

/-- Counterexample for C5 as literally stated: on the no-intersection run at
radius 11 the returned state still has `skipped_small_count = 0` and the
sentinel `skipped_small_len`: no shortfall metric is recorded. -/
theorem no_intersection_counters_not_updated :
    cornerIntersect (scMk 11 1) spA 0 1 2 = .ok none ∧
    subpath_round_corner 0 (scMk 11 1) st0 spA 1 =
      .ok (spA, ⟨0, 0, scMk (10 ^ 99) 1⟩) := by
  decide

/-- Claim C6: the spec says a zero-length tangent (all four control points
coincident) is signaled as a per-corner `InvalidInputError`. The code's
`calculate_center_point` divides by the tangent norm with only a TODO
comment: on the degenerate segment `ctxDeg` the division by zero escapes
(modelled as the `zeroDiv` error) already while building the offset tree. -/
theorem degenerate_tangent_division_unguarded :
    calculate_center_point ctxDeg (scMk 1 2) = .error .zeroDiv ∧
    buildCC ctxDeg buildFuel 0 1 none none = .error .zeroDiv := by
  decide

/-- Claim C7 (amended): the offset-curve trees are not immutable -
`intersectCenterCurveSegments` reverses `_segments` child lists in place -
but that is the only mutation: the post-call state of each argument tree is
`SwapEq`-equivalent to its input state (all node data preserved, children
of inner nodes possibly exchanged). The literal immutability claim is
refuted by `intersect_mutates_children`. -/
theorem intersect_preserves_up_to_swap (fuel : Nat) (s1 s2 : CenterCurveSegment) :
    SwapEq s1 (intersectCenterCurveSegments fuel s1 s2).2.1 ∧
    SwapEq s2 (intersectCenterCurveSegments fuel s1 s2).2.2 :=
  swapEq_intersect fuel s1 s2

/-- Counterexample for C7 as literally stated: intersecting the two `spA`
offset trees changes the first tree (its child list is reversed in place),
so the tree after the call differs from the tree before it. -/
theorem intersect_mutates_children :
    (intersectCenterCurveSegments interFuel tA1 tA2).2.1 ≠ tA1 := by
  decide

/-- Claim C8: in every successfully built offset-curve tree a node is
terminal exactly when the subdivision criterion - parameter range above
0.26, or squared true-to-approximated midpoint deviation above eps squared
(eps = 1/1000) - is false at that node; in particular every terminal node
has deviation at most eps or range at most 0.26. -/
theorem terminality_criterion_exact (fuel : Nat) (c : Ctx) (ts te : Sc)
    (ops ope : Option Pt) (t : CenterCurveSegment)
    (h : buildCC c fuel ts te ops ope = .ok t) : termInvB c t = true :=
  termInv_of_buildCC fuel c ts te ops ope t h

/-- Witness for C8: the terminality invariant on the concretely built
two-level tree `treeW`. -/
theorem terminality_criterion_exact_witness : termInvB ctxW treeW = true :=
  terminality_criterion_exact 4 ctxW 0 (scMk 1 2) none none treeW (by decide)

/-- Claim C10 (amended): rounding the `spA` corner with radius 0 is not a
no-op: the offset trees coincide with the segments themselves, the search
returns the corner point itself (parameters (1, 0)), and `arc_bezier_handles`
then divides by the zero cross product, so the run raises a division by
zero (modelled as the `zeroDiv` error) instead of returning the subpath
unchanged. -/
theorem radius_zero_raises_zeroDiv :
    cornerIntersect 0 spA 0 1 2 = .ok (some (1, 0)) ∧
    subpath_round_corner (scMk 9 10) 0 st0 spA 1 = .error .zeroDiv := by
  decide

/-- Counterexample for C10 as literally stated: the radius 0 run does not
return the original subpath unchanged and without error. -/
theorem radius_zero_not_noop :
    subpath_round_corner (scMk 9 10) 0 st0 spA 1 ≠ .ok (spA, st0) := by
  decide

/-- Claim C9: for a fitted corner, the run replaces the corner node by the
two arc nodes: the arc bezier starts exactly at the first trim point P (the
de Casteljau split point of the incoming segment at t1) and ends exactly at
the second trim point N (the split point of the outgoing segment at t2),
with no tolerance, and its two control handles agree in value with the
spec's formula `specArcHandles` (P + k2 rot90(a) and N - k2 rot90(b) with
k2 = (4/3)(sqrt(2 q1 q2) - q2)/(a x b)). -/
theorem fitted_arc_exact_endpoints_spec_handles
    (mtf radius : Sc) (st : St) (sp : List SpN) (node_idx : Nat)
    (sn : SN) (spn : SpN) (t1 t2 : Sc) (arc_c c1 c2 : Pt)
    (h1 : super_node sp node_idx = some (sn, spn))
    (h2 : cornerIntersect radius sp sn.prev.idx node_idx sn.next.idx =
      .ok (some (t1, t2)))
    (h3 : calculate_center_point
      (mkCtx1 radius (spGet sp sn.prev.idx) (spGet sp node_idx)) t1 = .ok arc_c)
    (h4 : arc_bezier_handles
      (split_bezier_curve (spGet sp sn.prev.idx).pt (spGet sp sn.prev.idx).h2
        (spGet sp node_idx).h0 (spGet sp node_idx).pt t1).1.2.2.2
      (split_bezier_curve (spGet sp node_idx).pt (spGet sp node_idx).h2
        (spGet sp sn.next.idx).h0 (spGet sp sn.next.idx).pt t2).2.1
      arc_c = .ok (c1, c2))
    (h5 : node_idx ≠ 0) :
    (∃ pre post : List SpN,
      subpath_round_corner mtf radius st sp node_idx =
        .ok (pre ++
          (⟨(split_bezier_curve (spGet sp sn.prev.idx).pt (spGet sp sn.prev.idx).h2
               (spGet sp node_idx).h0 (spGet sp node_idx).pt t1).1.2.2.1,
             (split_bezier_curve (spGet sp sn.prev.idx).pt (spGet sp sn.prev.idx).h2
               (spGet sp node_idx).h0 (spGet sp node_idx).pt t1).1.2.2.2, c1⟩ : SpN) ::
          (⟨c2,
             (split_bezier_curve (spGet sp node_idx).pt (spGet sp node_idx).h2
               (spGet sp sn.next.idx).h0 (spGet sp sn.next.idx).pt t2).2.1,
             (split_bezier_curve (spGet sp node_idx).pt (spGet sp node_idx).h2
               (spGet sp sn.next.idx).h0 (spGet sp sn.next.idx).pt t2).2.2.1⟩ : SpN) ::
          post, st)) ∧
    ptBeq (split_bezier_curve (spGet sp sn.prev.idx).pt (spGet sp sn.prev.idx).h2
        (spGet sp node_idx).h0 (spGet sp node_idx).pt t1).1.2.2.2
      (bezier_point (spGet sp sn.prev.idx).pt (spGet sp sn.prev.idx).h2
        (spGet sp node_idx).h0 (spGet sp node_idx).pt t1) = true ∧
    ptBeq (split_bezier_curve (spGet sp node_idx).pt (spGet sp node_idx).h2
        (spGet sp sn.next.idx).h0 (spGet sp sn.next.idx).pt t2).2.1
      (bezier_point (spGet sp node_idx).pt (spGet sp node_idx).h2
        (spGet sp sn.next.idx).h0 (spGet sp sn.next.idx).pt t2) = true ∧
    ptBeq c1 (specArcHandles
      (split_bezier_curve (spGet sp sn.prev.idx).pt (spGet sp sn.prev.idx).h2
        (spGet sp node_idx).h0 (spGet sp node_idx).pt t1).1.2.2.2
      (split_bezier_curve (spGet sp node_idx).pt (spGet sp node_idx).h2
        (spGet sp sn.next.idx).h0 (spGet sp sn.next.idx).pt t2).2.1 arc_c).1 = true ∧
    ptBeq c2 (specArcHandles
      (split_bezier_curve (spGet sp sn.prev.idx).pt (spGet sp sn.prev.idx).h2
        (spGet sp node_idx).h0 (spGet sp node_idx).pt t1).1.2.2.2
      (split_bezier_curve (spGet sp node_idx).pt (spGet sp node_idx).h2
        (spGet sp sn.next.idx).h0 (spGet sp sn.next.idx).pt t2).2.1 arc_c).2 = true := by
  refine ⟨?_, ?_, ?_, ?_, ?_⟩
  · unfold subpath_round_corner
    rw [h1]
    dsimp only
    rw [h2]
    dsimp only
    rw [h3]
    dsimp only
    rw [h4]
    dsimp only
    rw [if_neg h5]
    exact ⟨_, _, rfl⟩
  · exact (split_bezier_boundary _ _ _ _ t1).1
  · rw [(split_bezier_boundary (spGet sp node_idx).pt (spGet sp node_idx).h2
      (spGet sp sn.next.idx).h0 (spGet sp sn.next.idx).pt t2).2]
    exact (split_bezier_boundary _ _ _ _ t2).1
  · exact (arc_bezier_handles_matches_spec _ _ _ _ _ h4).1
  · exact (arc_bezier_handles_matches_spec _ _ _ _ _ h4).2

/-- Witness for C9: the `spA` corner fitted at radius 99/10 with trim
parameters (1/100, 99/100): the arc runs exactly from P = (-99/10, 0) to
N = (0, 99/10) with handles `c1A`, `c2A` matching the spec formula. -/
theorem fitted_arc_exact_endpoints_spec_handles_witness :
    (∃ pre post : List SpN,
      subpath_round_corner (scMk 9 10) (scMk 99 10) st0 spA 1 =
        .ok (pre ++ (⟨⟨scMk (-149) 15, 0⟩, ⟨scMk (-99) 10, 0⟩, c1A⟩ : SpN) ::
          (⟨c2A, ⟨0, scMk 99 10⟩, ⟨0, scMk 149 15⟩⟩ : SpN) :: post, st0)) ∧
    ptBeq ⟨scMk (-99) 10, 0⟩ (bezier_point (spGet spA 0).pt (spGet spA 0).h2
      (spGet spA 1).h0 (spGet spA 1).pt (scMk 1 100)) = true ∧
    ptBeq ⟨0, scMk 99 10⟩ (bezier_point (spGet spA 1).pt (spGet spA 1).h2
      (spGet spA 2).h0 (spGet spA 2).pt (scMk 99 100)) = true ∧
    ptBeq c1A (specArcHandles ⟨scMk (-99) 10, 0⟩ ⟨0, scMk 99 10⟩ arcCA).1 = true ∧
    ptBeq c2A (specArcHandles ⟨scMk (-99) 10, 0⟩ ⟨0, scMk 99 10⟩ arcCA).2 = true :=
  fitted_arc_exact_endpoints_spec_handles (scMk 9 10) (scMk 99 10) st0 spA 1 snA spnA
    (scMk 1 100) (scMk 99 100) arcCA c1A c2A (by decide) (by decide) (by decide)
    (by decide) (by decide)
